import Mathlib

/-!
# Verification of the kac_core physics core (modal analysis + FDTD engine)

This file is a shallow embedding, in Lean 4, of the physics core of the
`kac_core` repository: the modal series/amplitude generators
(`linear_modes.hpp`, `circular_modes.hpp`, `triangular_modes.hpp`), the
additive synthesiser and Chladni-pattern renderer (`wave_equation.hpp`),
and the finite-difference time-domain engine (`fdtd.hpp`).

Modelling conventions:
* C++ `double` values are modelled as real numbers (`ℝ`); arithmetic is
  exact rather than IEEE-rounded.
* `std::vector<double>` / `std::vector<std::vector<double>>` are modelled
  as `List ℝ` / `List (List ℝ)`; a `BooleanImage_2D` (`vector<short>` of
  0/1 flags) is modelled as `List (List Bool)` or as a predicate
  `ℕ → ℕ → Bool`.
* In-range element reads are modelled with `List.getD _ _ 0` (the C++ code
  indexes with `operator[]`, which is only defined in range; all reads
  performed by the modelled code paths under the stated hypotheses are in
  range).  Where a claim is *about* an out-of-range read
  (`AdditiveSynthesis2D` reading `F[0]` and `ChladniPattern2D` reading
  `U[0]` of an empty vector), the read is modelled with the optional
  indexing operator and the function returns `Option`.
* The explicit `throw std::invalid_argument` paths of the FDTD waveform
  functions are modelled with `Except String`.
-/

noncomputable section

/-- Peak absolute value of a waveform: the C++ pattern
`double max_x = 0.; for (double& x: w) max_x = std::max(max_x, std::abs(x));`
(a fold of `max |·|` with initial value `0`; `max` is associative and
commutative so a right fold has the same value as the C++ left fold). -/
def peak (w : List ℝ) : ℝ :=
  w.foldr (fun x acc => max |x| acc) 0

/-- Peak normalisation as performed at the end of `AdditiveSynthesis1D/2D`
and `FDTDWaveform1D/2D`: divide by the peak unless the peak is zero. -/
def normalise (w : List ℝ) : List ℝ :=
  if peak w = 0 then w else w.map fun x => x / peak w

theorem peak_cons (x : ℝ) (xs : List ℝ) : peak (x :: xs) = max |x| (peak xs) :=
  rfl

theorem peak_nonneg (w : List ℝ) : 0 ≤ peak w := by
  induction w with
  | nil => simp [peak]
  | cons x xs ih => rw [peak_cons]; exact le_max_of_le_right ih

theorem abs_le_peak {x : ℝ} {w : List ℝ} (hx : x ∈ w) : |x| ≤ peak w := by
  induction w with
  | nil => cases hx
  | cons y ys ih =>
      rcases List.mem_cons.mp hx with h | h
      · subst h; exact le_max_left _ _
      · exact le_trans (ih h) (le_max_right _ _)

theorem peak_eq_zero_iff (w : List ℝ) : peak w = 0 ↔ ∀ x ∈ w, x = 0 := by
  constructor
  · intro h x hx
    have h1 : |x| ≤ 0 := h ▸ abs_le_peak hx
    exact abs_eq_zero.mp (le_antisymm h1 (abs_nonneg x))
  · intro h
    induction w with
    | nil => simp [peak]
    | cons y ys ih =>
        have hy : y = 0 := h y (List.mem_cons_self y ys)
        have hys : peak ys = 0 := ih fun x hx => h x (List.mem_cons_of_mem _ hx)
        rw [peak_cons, hy, hys, abs_zero, max_self]

theorem peak_map_div (w : List ℝ) {p : ℝ} (hp : 0 < p) :
    peak (w.map fun x => x / p) = peak w / p := by
  induction w with
  | nil => simp [peak]
  | cons x xs ih =>
      have habs : |x / p| = |x| / p := by
        rw [abs_div, abs_of_pos hp]
      have hmono : ∀ a b : ℝ, a ≤ b → a / p ≤ b / p := fun a b h =>
        div_le_div_of_nonneg_right h hp.le
      have hmax : ∀ a b : ℝ, max (a / p) (b / p) = max a b / p := by
        intro a b
        rcases le_total a b with h | h
        · rw [max_eq_right h, max_eq_right (hmono a b h)]
        · rw [max_eq_left h, max_eq_left (hmono b a h)]
      rw [List.map_cons, peak_cons, peak_cons, ih, habs, hmax]

theorem peak_normalise (w : List ℝ) :
    peak (normalise w) = 0 ∨ peak (normalise w) = 1 := by
  by_cases h : peak w = 0
  · left; simp [normalise, h]
  · right
    have hp : 0 < peak w := lt_of_le_of_ne (peak_nonneg w) (Ne.symm h)
    simp only [normalise, h, if_false]
    rw [peak_map_div w hp, div_self h]

theorem normalise_of_all_zero (w : List ℝ) (h : ∀ x ∈ w, x = 0) :
    normalise w = w := by
  simp [normalise, (peak_eq_zero_iff w).mpr h]

/-! ## Linear modes (`src/physics/modes/linear_modes.hpp`)

`linearAmplitudes(x, N, boundary_conditions)`: the boundary condition is a
pair of booleans `(left, right)`, `true` = fixed.  Note that the source
applies `std::abs` to every sinusoidal term. -/

/-- Embedding of `kac_core::physics::linearAmplitudes`.  The source
branches on the boundary-condition pair and fills `A[n]` with
`std::abs(std::sin((n + 1) * x_pi))` (Dirichlet),
`std::abs(std::cos(n * x_pi))` (Neumann), or
`std::abs(std::sin((n + 0.5) * x_pi))` (mixed), where `x_pi = x * π`. -/
def linearAmplitudes (x : ℝ) (N : ℕ) (l r : Bool) : List ℝ :=
  if l && r then
    (List.range N).map fun n => |Real.sin ((n + 1 : ℕ) * (x * Real.pi))|
  else if !l && !r then
    (List.range N).map fun n => |Real.cos ((n : ℕ) * (x * Real.pi))|
  else
    (List.range N).map fun n : ℕ => |Real.sin (((n : ℝ) + 0.5) * (x * Real.pi))|

theorem getD_map_range {α : Type} [Inhabited α] (f : ℕ → α) (d : α) (N n : ℕ)
    (hn : n < N) : ((List.range N).map f).getD n d = f n := by
  rw [List.getD_eq_getElem?_getD, List.getElem?_map, List.getElem?_range hn]
  rfl

theorem getD_map_range_oob {α : Type} [Inhabited α] (f : ℕ → α) (d : α) (N n : ℕ)
    (hn : ¬n < N) : ((List.range N).map f).getD n d = d := by
  rw [List.getD_eq_getElem?_getD, List.getElem?_eq_none]
  · rfl
  · simpa using le_of_not_lt hn

theorem linearAmplitudes_getD_dirichlet (x : ℝ) (N n : ℕ) (hn : n < N) :
    (linearAmplitudes x N true true).getD n 0
      = |Real.sin ((n + 1 : ℕ) * (x * Real.pi))| := by
  rw [linearAmplitudes]
  simp only [Bool.and_self, if_true]
  exact getD_map_range _ 0 N n hn

theorem linearAmplitudes_getD_neumann (x : ℝ) (N n : ℕ) (hn : n < N) :
    (linearAmplitudes x N false false).getD n 0
      = |Real.cos ((n : ℕ) * (x * Real.pi))| := by
  rw [linearAmplitudes]
  simp only [Bool.and_self, Bool.not_false, Bool.and_false, Bool.false_and]
  exact getD_map_range _ 0 N n hn

theorem linearAmplitudes_getD_mixed (x : ℝ) (N n : ℕ) (l r : Bool)
    (hlr : l ≠ r) (hn : n < N) :
    (linearAmplitudes x N l r).getD n 0
      = |Real.sin (((n : ℝ) + 0.5) * (x * Real.pi))| := by
  rw [linearAmplitudes]
  cases l <;> cases r <;> simp only [ne_eq, not_true_eq_false] at hlr <;>
    simp only [Bool.and_false, Bool.false_and, Bool.and_true, Bool.true_and,
      Bool.not_false, Bool.not_true, if_false] <;>
    exact getD_map_range _ 0 N n hn

theorem linearAmplitudes_half_three :
    linearAmplitudes (1/2) 3 true true = [1, 0, 1] := by
  have hr : List.range 3 = [0, 1, 2] := rfl
  rw [linearAmplitudes]
  simp only [Bool.and_self, if_true, hr, List.map_cons, List.map_nil]
  have h1 : ((0 + 1 : ℕ) : ℝ) * (1/2 * Real.pi) = Real.pi / 2 := by push_cast; ring
  have h2 : ((1 + 1 : ℕ) : ℝ) * (1/2 * Real.pi) = Real.pi := by push_cast; ring
  have h3 : ((2 + 1 : ℕ) : ℝ) * (1/2 * Real.pi) = Real.pi + Real.pi / 2 := by
    push_cast; ring
  rw [h1, h2, h3, Real.sin_add, Real.sin_pi_div_two, Real.sin_pi, Real.cos_pi,
      Real.cos_pi_div_two]
  norm_num

/-- C3 counterexample: `linearAmplitudes(0.5, 3, fixed-fixed)` does NOT return
`[1, 0, -1]`: the source wraps every sinusoidal term in `std::abs`, so the
third entry is `|sin(1.5π)| = 1`, not `-1`. -/
theorem claim_C3_counterexample :
    linearAmplitudes (1/2) 3 true true ≠ [1, 0, -1] := by
  intro h
  rw [linearAmplitudes_half_three] at h
  simp only [List.cons.injEq, and_true, List.nil_eq] at h
  norm_num at h

/-- C3 (amended): `linearAmplitudes(0.5, 3, fixed-fixed)` returns exactly
`[1, 0, 1]`; in general, for x normalised to [0,1] the linear amplitude for
mode n is the ABSOLUTE value `|sin((n+1)xπ)|` (Dirichlet), `|cos(nxπ)|`
(Neumann), or `|sin((n+0.5)xπ)|` (mixed) — the sign is discarded by
`std::abs` in the source. -/
theorem claim_C3_theorem :
    (∀ (x : ℝ) (N n : ℕ), n < N →
      (linearAmplitudes x N true true).getD n 0
          = |Real.sin ((n + 1 : ℕ) * (x * Real.pi))| ∧
      (linearAmplitudes x N false false).getD n 0
          = |Real.cos ((n : ℕ) * (x * Real.pi))| ∧
      (linearAmplitudes x N true false).getD n 0
          = |Real.sin (((n : ℝ) + 0.5) * (x * Real.pi))| ∧
      (linearAmplitudes x N false true).getD n 0
          = |Real.sin (((n : ℝ) + 0.5) * (x * Real.pi))|) ∧
    linearAmplitudes (1/2) 3 true true = [1, 0, 1] := by
  refine ⟨fun x N n hn => ?_, linearAmplitudes_half_three⟩
  exact ⟨linearAmplitudes_getD_dirichlet x N n hn,
    linearAmplitudes_getD_neumann x N n hn,
    linearAmplitudes_getD_mixed x N n true false (by simp) hn,
    linearAmplitudes_getD_mixed x N n false true (by simp) hn⟩

/-- Witness for C3: the amended theorem applied at the concrete input
`x = 1/2`, `N = 1`, `n = 0`. -/
theorem claim_C3_witness :
    (linearAmplitudes (1/2) 1 true true).getD 0 0
      = |Real.sin ((0 + 1 : ℕ) * ((1/2 : ℝ) * Real.pi))| :=
  (claim_C3_theorem.1 (1/2) 1 0 (by norm_num)).1

/-- C9 (confirmed): every entry of the array returned by `linearAmplitudes`
is non-negative, for every strike location, mode count and boundary-condition
selector — the implementation applies `std::abs` to each sinusoidal term.
(Out-of-range reads of the modelled array return the default `0`, also
non-negative.) -/
theorem claim_C9_theorem (x : ℝ) (N : ℕ) (l r : Bool) (n : ℕ) :
    0 ≤ (linearAmplitudes x N l r).getD n 0 := by
  rw [linearAmplitudes]
  split_ifs
  all_goals by_cases hn : n < N
  all_goals first
    | (rw [getD_map_range _ _ _ _ hn]; exact abs_nonneg _)
    | (rw [getD_map_range_oob _ _ _ _ hn])

/-! ## Circular modes (`src/physics/modes/circular_modes.hpp`) -/

/-- Entry read of a 2D grid: `S[m][n]`, with defaults for the modelled
out-of-range case. -/
def entryD (S : List (List ℝ)) (m n : ℕ) : ℝ :=
  (S.getD m []).getD n 0

theorem entryD_map_range (f : ℕ → ℕ → ℝ) (M N m n : ℕ) (hm : m < M)
    (hn : n < N) :
    entryD ((List.range M).map fun i => (List.range N).map fun j => f i j) m n
      = f m n := by
  rw [entryD, getD_map_range _ [] M m hm, getD_map_range _ 0 N n hn]

/-- Embedding of the Dirichlet (`boundary_conditions = true`) branch of
`kac_core::physics::circularSeries`:
`S[m][n] = boost::math::cyl_bessel_j_zero(m, n + 1) / std::sqrt(π)`.
The root solver `boost::math::cyl_bessel_j_zero` is an external library
dependency whose source is not part of this repository, so it is taken as
the parameter `besselJZero`; per the spec (§4.1, RootSolver) it returns the
k-th positive zero of the Bessel function `J_order`, and the published
order-0 zeros are 2.4048..., 5.5201..., 8.6537... (within 1e-3 of the
spec's quoted three-digit values). -/
def circularSeries (besselJZero : ℕ → ℕ → ℝ) (M N : ℕ) : List (List ℝ) :=
  (List.range M).map fun m =>
    (List.range N).map fun n => besselJZero m (n + 1) / Real.sqrt Real.pi

theorem sqrt_pi_gt_one : (1 : ℝ) < Real.sqrt Real.pi := by
  rw [show (1 : ℝ) = Real.sqrt 1 from Real.sqrt_one.symm]
  exact Real.sqrt_lt_sqrt (by norm_num) (by linarith [Real.pi_gt_d6])

theorem sqrt_pi_gt : (1.77 : ℝ) < Real.sqrt Real.pi := by
  rw [show (1.77 : ℝ) = Real.sqrt (1.77 ^ 2) from
    (Real.sqrt_sq (by norm_num)).symm]
  exact Real.sqrt_lt_sqrt (by norm_num) (by nlinarith [Real.pi_gt_d6])

/-- C1 counterexample: instantiating the root solver at the published first
zero of `J_0` (2.404825557695773), the (0,0) entry of
`circularSeries(1, 1, fixed)` is that zero DIVIDED by √π (≈ 1.3566), which
is not within 1e-3 of 2.4048. -/
theorem claim_C1_counterexample :
    ¬ |entryD (circularSeries (fun _ _ => (2.404825557695773 : ℝ)) 1 1) 0 0
        - 2.4048| < 1/1000 := by
  intro h
  rw [circularSeries, entryD_map_range _ 1 1 0 0 (by norm_num) (by norm_num)]
    at h
  have hs : (0 : ℝ) < Real.sqrt Real.pi := lt_trans one_pos sqrt_pi_gt_one
  have hlt : (2.404825557695773 : ℝ) / Real.sqrt Real.pi < 1.4 := by
    rw [div_lt_iff₀ hs]
    nlinarith [sqrt_pi_gt]
  rw [abs_lt] at h
  linarith [h.1]

/-- C1 (amended): the order-0 Dirichlet entries of `circularSeries` are the
published zeros of `J_0` divided by √π: whenever the root solver returns
values within 1e-3 of 2.4048, 5.5201 and 8.6537 for the first three order-0
zeros, the three entries of `circularSeries(1, 3, fixed)` are within 1e-3 of
2.4048/√π (≈ 1.3566), 5.5201/√π (≈ 3.1144) and 8.6537/√π (≈ 4.8823)
respectively — not of the raw zeros. -/
theorem claim_C1_theorem (Z : ℕ → ℕ → ℝ)
    (h1 : |Z 0 1 - 2.4048| ≤ 1/1000) (h2 : |Z 0 2 - 5.5201| ≤ 1/1000)
    (h3 : |Z 0 3 - 8.6537| ≤ 1/1000) :
    |entryD (circularSeries Z 1 3) 0 0 - 2.4048 / Real.sqrt Real.pi| < 1/1000 ∧
    |entryD (circularSeries Z 1 3) 0 1 - 5.5201 / Real.sqrt Real.pi| < 1/1000 ∧
    |entryD (circularSeries Z 1 3) 0 2 - 8.6537 / Real.sqrt Real.pi| < 1/1000 := by
  have hs : (0 : ℝ) < Real.sqrt Real.pi := lt_trans one_pos sqrt_pi_gt_one
  have key : ∀ (z t : ℝ), |z - t| ≤ 1/1000 →
      |z / Real.sqrt Real.pi - t / Real.sqrt Real.pi| < 1/1000 := by
    intro z t hzt
    rw [div_sub_div_same, abs_div, abs_of_pos hs]
    calc |z - t| / Real.sqrt Real.pi ≤ (1/1000) / Real.sqrt Real.pi := by
          exact div_le_div_of_nonneg_right hzt hs.le
      _ < 1/1000 := div_lt_self (by norm_num) sqrt_pi_gt_one
  rw [circularSeries, entryD_map_range _ 1 3 0 0 (by norm_num) (by norm_num),
      entryD_map_range _ 1 3 0 1 (by norm_num) (by norm_num),
      entryD_map_range _ 1 3 0 2 (by norm_num) (by norm_num)]
  exact ⟨key _ _ h1, key _ _ h2, key _ _ h3⟩

/-- Witness for C1: the amended theorem applied to a concrete root solver
that returns exactly the spec's published three-digit values. -/
theorem claim_C1_witness :
    |entryD (circularSeries
        (fun _ k => if k = 1 then (2.4048 : ℝ) else if k = 2 then 5.5201
          else 8.6537) 1 3) 0 0 - 2.4048 / Real.sqrt Real.pi| < 1/1000 ∧
    |entryD (circularSeries
        (fun _ k => if k = 1 then (2.4048 : ℝ) else if k = 2 then 5.5201
          else 8.6537) 1 3) 0 1 - 5.5201 / Real.sqrt Real.pi| < 1/1000 ∧
    |entryD (circularSeries
        (fun _ k => if k = 1 then (2.4048 : ℝ) else if k = 2 then 5.5201
          else 8.6537) 1 3) 0 2 - 8.6537 / Real.sqrt Real.pi| < 1/1000 :=
  claim_C1_theorem _ (by norm_num) (by norm_num) (by norm_num)

/-! ## Equilateral-triangle modes (`src/physics/modes/triangular_modes.hpp`)

The source computes `S[n][m] = sqrt(pow((m + 1), 2) + pow((n + 1), 2) + m * n)`
with zero-based loop indices `n < N`, `m < M`: the squared terms use the
one-based indices `m+1`, `n+1` while the cross term uses the zero-based
`m * n`. -/

/-- Embedding of `kac_core::physics::equilateralTriangleSeries`. -/
def equilateralTriangleSeries (N M : ℕ) : List (List ℝ) :=
  (List.range N).map fun n : ℕ =>
    (List.range M).map fun m : ℕ =>
      Real.sqrt (((m : ℝ) + 1) ^ 2 + ((n : ℝ) + 1) ^ 2 + (m : ℝ) * (n : ℝ))

/-- C6 (code bug): at the (0,0) entry (`M = N = 1`) the code returns
`√((0+1)² + (0+1)² + 0·0) = √2`.  The claim's zero-based Lamé formula
`√(m² + n² + mn)` gives `√0 = 0` there, and the function's own documentation
(`S = { (m² + n² + mn)^0.5 | 0 < n <= N, 0 < m <= M }`, i.e. one-based
Lamé) gives `√3`: the code contradicts both, because the cross term `m * n`
uses the zero-based loop indices while the squares use one-based ones. -/
theorem claim_C6_theorem :
    equilateralTriangleSeries 1 1 = [[Real.sqrt 2]] ∧
    Real.sqrt ((0 : ℝ) ^ 2 + 0 ^ 2 + 0 * 0) = 0 ∧
    Real.sqrt 2 ≠ 0 ∧
    Real.sqrt 2 ≠ Real.sqrt 3 := by
  refine ⟨?_, by norm_num, ?_, ?_⟩
  · rw [equilateralTriangleSeries]
    have hr : List.range 1 = [0] := rfl
    rw [hr]
    simp only [List.map_cons, List.map_nil, Nat.cast_zero]
    norm_num
  · exact Real.sqrt_ne_zero'.mpr (by norm_num)
  · exact ne_of_lt
      (Real.sqrt_lt_sqrt (by norm_num : (0:ℝ) ≤ 2) (by norm_num : (2:ℝ) < 3))

/-! ## Wave equation (`src/physics/modes/wave_equation.hpp`) -/

theorem getD_zero_of_all_zero (l : List ℝ) (h : ∀ a ∈ l, a = 0) (n : ℕ) :
    l.getD n 0 = 0 := by
  by_cases hn : n < l.length
  · rw [List.getD_eq_getElem l 0 hn]
    exact h _ (List.getElem_mem hn)
  · rw [List.getD_eq_default]
    simpa using le_of_not_lt hn

theorem entryD_zero_of_all_zero (l : List (List ℝ))
    (h : ∀ row ∈ l, ∀ a ∈ row, a = 0) (m n : ℕ) : entryD l m n = 0 := by
  rw [entryD]
  by_cases hm : m < l.length
  · rw [List.getD_eq_getElem l [] hm]
    exact getD_zero_of_all_zero _ (h _ (List.getElem_mem hm)) n
  · rw [List.getD_eq_default l [] (by simpa using le_of_not_lt hm)]
    rfl

/-- The pre-normalisation waveform of `AdditiveSynthesis1D`:
`W[t] = (Σ_{n < N} sin(F[n] · t · 2πk) · α[n]) · (e^d)^t`, where `N = F.size()`
and the decay factor `d_t` starts at 1 and is multiplied by `e^d` after each
sample. -/
def AdditiveSynthesis1Draw (F alpha : List ℝ) (d k : ℝ) (T : ℕ) : List ℝ :=
  (List.range T).map fun t : ℕ =>
    (((List.range F.length).map fun n : ℕ =>
        Real.sin (F.getD n 0 * ((t : ℝ) * (2 * Real.pi * k)))
          * alpha.getD n 0).sum)
      * Real.exp d ^ t

/-- Embedding of `kac_core::physics::AdditiveSynthesis1D`: the raw waveform
followed by peak normalisation. -/
def AdditiveSynthesis1D (F alpha : List ℝ) (d k : ℝ) (T : ℕ) : List ℝ :=
  normalise (AdditiveSynthesis1Draw F alpha d k T)

/-- The pre-normalisation waveform of `AdditiveSynthesis2D`, with the inner
mode count `N` (the source reads it from `F[0].size()`). -/
def AdditiveSynthesis2Draw (F alpha : List (List ℝ)) (N : ℕ) (d k : ℝ)
    (T : ℕ) : List ℝ :=
  (List.range T).map fun t : ℕ =>
    (((List.range F.length).map fun m : ℕ =>
        ((List.range N).map fun n : ℕ =>
            Real.sin (entryD F m n * ((t : ℝ) * (2 * Real.pi * k)))
              * entryD alpha m n).sum).sum)
      * Real.exp d ^ t

/-- Embedding of `kac_core::physics::AdditiveSynthesis2D`.  The source reads
`F[0].size()` before the loop; for a rowless grid (`F.size() == 0`) that is
an out-of-bounds `std::vector` access (undefined behaviour), modelled here
by `F[0]?` and an `Option` result. -/
def AdditiveSynthesis2D (F alpha : List (List ℝ)) (d k : ℝ) (T : ℕ) :
    Option (List ℝ) :=
  match F[0]? with
  | none => none
  | some r0 => some (normalise (AdditiveSynthesis2Draw F alpha r0.length d k T))

theorem AdditiveSynthesis1Draw_zero (F alpha : List ℝ) (d k : ℝ) (T : ℕ)
    (h : ∀ a ∈ alpha, a = 0) :
    AdditiveSynthesis1Draw F alpha d k T = List.replicate T 0 := by
  rw [AdditiveSynthesis1Draw]
  have hz : ∀ t : ℕ,
      (((List.range F.length).map fun n : ℕ =>
        Real.sin (F.getD n 0 * ((t : ℝ) * (2 * Real.pi * k)))
          * alpha.getD n 0).sum) * Real.exp d ^ t = 0 := by
    intro t
    have hsum : ((List.range F.length).map fun n : ℕ =>
        Real.sin (F.getD n 0 * ((t : ℝ) * (2 * Real.pi * k)))
          * alpha.getD n 0).sum = 0 := by
      apply List.sum_eq_zero
      intro x hx
      rcases List.mem_map.mp hx with ⟨n, _, rfl⟩
      rw [getD_zero_of_all_zero alpha h n, mul_zero]
    rw [hsum, zero_mul]
  calc (List.range T).map (fun t : ℕ =>
        (((List.range F.length).map fun n : ℕ =>
          Real.sin (F.getD n 0 * ((t : ℝ) * (2 * Real.pi * k)))
            * alpha.getD n 0).sum) * Real.exp d ^ t)
      = (List.range T).map (fun _ : ℕ => (0 : ℝ)) := List.map_congr_left
        fun t _ => hz t
    _ = List.replicate T 0 := by
        rw [List.map_const']
        simp

theorem AdditiveSynthesis2Draw_zero (F alpha : List (List ℝ)) (N : ℕ)
    (d k : ℝ) (T : ℕ) (h : ∀ row ∈ alpha, ∀ a ∈ row, a = 0) :
    AdditiveSynthesis2Draw F alpha N d k T = List.replicate T 0 := by
  rw [AdditiveSynthesis2Draw]
  have hz : ∀ t : ℕ,
      (((List.range F.length).map fun m : ℕ =>
        ((List.range N).map fun n : ℕ =>
            Real.sin (entryD F m n * ((t : ℝ) * (2 * Real.pi * k)))
              * entryD alpha m n).sum).sum) * Real.exp d ^ t = 0 := by
    intro t
    have hsum : ((List.range F.length).map fun m : ℕ =>
        ((List.range N).map fun n : ℕ =>
            Real.sin (entryD F m n * ((t : ℝ) * (2 * Real.pi * k)))
              * entryD alpha m n).sum).sum = 0 := by
      apply List.sum_eq_zero
      intro x hx
      rcases List.mem_map.mp hx with ⟨m, _, rfl⟩
      apply List.sum_eq_zero
      intro y hy
      rcases List.mem_map.mp hy with ⟨n, _, rfl⟩
      rw [entryD_zero_of_all_zero alpha h m n, mul_zero]
    rw [hsum, zero_mul]
  calc (List.range T).map (fun t : ℕ =>
        (((List.range F.length).map fun m : ℕ =>
          ((List.range N).map fun n : ℕ =>
              Real.sin (entryD F m n * ((t : ℝ) * (2 * Real.pi * k)))
                * entryD alpha m n).sum).sum) * Real.exp d ^ t)
      = (List.range T).map (fun _ : ℕ => (0 : ℝ)) := List.map_congr_left
        fun t _ => hz t
    _ = List.replicate T 0 := by
        rw [List.map_const']
        simp

/-- C4 (amended): for every series grid, amplitude grid, decay, sample
interval and sample count T > 0, the waveform returned by additiveSynthesis
(1D, and 2D whenever the 2D variant is defined, i.e. the series grid has a
first row) satisfies max |w[t]| ∈ {0, 1}; the peak is 0 WHENEVER the
amplitude grid is entirely zero (but can also be 0 for nonzero amplitude
grids, see the counterexample), and the normalisation step never divides by
zero (it divides only when the peak is nonzero, by definition of
`normalise`). -/
theorem claim_C4_theorem :
    (∀ (F alpha : List ℝ) (d k : ℝ) (T : ℕ), 0 < T →
      peak (AdditiveSynthesis1D F alpha d k T) = 0 ∨
        peak (AdditiveSynthesis1D F alpha d k T) = 1) ∧
    (∀ (F alpha : List (List ℝ)) (d k : ℝ) (T : ℕ) (w : List ℝ), 0 < T →
      AdditiveSynthesis2D F alpha d k T = some w →
        peak w = 0 ∨ peak w = 1) ∧
    (∀ (F alpha : List ℝ) (d k : ℝ) (T : ℕ), (∀ a ∈ alpha, a = 0) →
      AdditiveSynthesis1D F alpha d k T = List.replicate T 0) ∧
    (∀ (F alpha : List (List ℝ)) (d k : ℝ) (T : ℕ) (w : List ℝ),
      (∀ row ∈ alpha, ∀ a ∈ row, a = 0) →
      AdditiveSynthesis2D F alpha d k T = some w → w = List.replicate T 0) := by
  refine ⟨?_, ?_, ?_, ?_⟩
  · intro F alpha d k T _
    exact peak_normalise _
  · intro F alpha d k T w _ hw
    rw [AdditiveSynthesis2D] at hw
    cases h0 : F[0]? with
    | none => rw [h0] at hw; cases hw
    | some r0 =>
        rw [h0] at hw
        have hw2 : w = normalise (AdditiveSynthesis2Draw F alpha r0.length d k T) :=
          (Option.some.injEq _ _ ▸ hw).symm
        rw [hw2]
        exact peak_normalise _
  · intro F alpha d k T h
    rw [AdditiveSynthesis1D, AdditiveSynthesis1Draw_zero F alpha d k T h]
    exact normalise_of_all_zero _ fun x hx => List.eq_of_mem_replicate hx
  · intro F alpha d k T w h hw
    rw [AdditiveSynthesis2D] at hw
    cases h0 : F[0]? with
    | none => rw [h0] at hw; cases hw
    | some r0 =>
        rw [h0] at hw
        have hw2 : w = normalise (AdditiveSynthesis2Draw F alpha r0.length d k T) :=
          (Option.some.injEq _ _ ▸ hw).symm
        rw [hw2, AdditiveSynthesis2Draw_zero F alpha r0.length d k T h]
        exact normalise_of_all_zero _ fun x hx => List.eq_of_mem_replicate hx

/-- C4 counterexample: the peak can be 0 with a NONZERO amplitude grid.
With `T = 1` the only sample is at `t = 0`, where every `sin(f·0) = 0`, so
`additiveSynthesis([1], [1], 0, 1, 1) = [0]` has peak 0 although the
amplitude grid `[1]` is not entirely zero. -/
theorem claim_C4_counterexample :
    peak (AdditiveSynthesis1D [1] [1] 0 1 1) = 0 ∧
    ¬ (∀ a ∈ ([1] : List ℝ), a = 0) := by
  constructor
  · have hraw : AdditiveSynthesis1Draw [1] [1] 0 1 1 = [0] := by
      rw [AdditiveSynthesis1Draw]
      simp only [List.length_cons, List.length_nil]
      rw [show List.range 1 = [0] from rfl]
      simp only [List.map_cons, List.map_nil, List.sum_cons, List.sum_nil]
      norm_num
    rw [AdditiveSynthesis1D, hraw]
    rw [normalise_of_all_zero [0] (by simp)]
    simp [peak]
  · intro h
    have := h 1 (by simp)
    norm_num at this

/-- Witness for C4: the amended theorem applied at concrete inputs
`F = [1], α = [1], d = 0, k = 1, T = 1` (first conjunct),
`F = [[0]], α = [[0]]` (second and fourth conjuncts, with the computed
output `w = [0]`) and `F = [1], α = [0]` (third conjunct). -/
theorem claim_C4_witness :
    (peak (AdditiveSynthesis1D [1] [1] 0 1 1) = 0 ∨
      peak (AdditiveSynthesis1D [1] [1] 0 1 1) = 1) ∧
    (peak ([0] : List ℝ) = 0 ∨ peak ([0] : List ℝ) = 1) ∧
    AdditiveSynthesis1D [1] [0] 0 1 2 = List.replicate 2 0 ∧
    ([0] : List ℝ) = List.replicate 1 0 := by
  have h2d : AdditiveSynthesis2D [[0]] [[0]] 0 1 1 = some [0] := by
    rw [AdditiveSynthesis2D]
    have h0 : ([[0]] : List (List ℝ))[0]? = some [0] := rfl
    rw [h0]
    have hraw : AdditiveSynthesis2Draw [[0]] [[0]] 1 0 1 1 = [0] := by
      rw [AdditiveSynthesis2Draw]
      rw [show List.range 1 = [0] from rfl]
      simp only [List.length_cons, List.length_nil, List.map_cons, List.map_nil,
        List.sum_cons, List.sum_nil]
      rw [show List.range 1 = [0] from rfl]
      simp only [List.map_cons, List.map_nil, List.sum_cons, List.sum_nil]
      have : entryD [[0]] 0 0 = 0 := rfl
      rw [this]
      norm_num
    show some (normalise (AdditiveSynthesis2Draw [[0]] [[0]]
      ([0] : List ℝ).length 0 1 1)) = some [0]
    rw [show ([0] : List ℝ).length = 1 from rfl, hraw,
        normalise_of_all_zero [0] (by simp)]
  exact ⟨claim_C4_theorem.1 [1] [1] 0 1 1 (by norm_num),
    claim_C4_theorem.2.1 [[0]] [[0]] 0 1 1 [0] (by norm_num) h2d,
    claim_C4_theorem.2.2.1 [1] [0] 0 1 2 (by simp),
    claim_C4_theorem.2.2.2 [[0]] [[0]] 0 1 1 [0] (by simp) h2d⟩

/-- C7 counterexample: for a rowless (`M = 0`) series grid the 2D variant
does NOT return a well-defined all-zero waveform: the source reads
`F[0].size()` before the loop, an out-of-bounds access on an empty
`std::vector` (undefined behaviour), modelled as `none`. -/
theorem claim_C7_counterexample :
    AdditiveSynthesis2D ([] : List (List ℝ)) [] 0 1 5 = none := rfl

/-- C7 (amended): for degenerate inputs with zero mode count,
additiveSynthesis returns an all-zero waveform of the requested length with
no error and no out-of-bounds access — in the 1D variant for empty grids,
and in the 2D variant for grids with at least one (empty) row; a rowless 2D
grid instead triggers the out-of-bounds read `F[0]` (see the
counterexample). -/
theorem claim_C7_theorem :
    (∀ (d k : ℝ) (T : ℕ),
      AdditiveSynthesis1D [] [] d k T = List.replicate T 0) ∧
    (∀ (d k : ℝ) (T M : ℕ), 0 < M →
      AdditiveSynthesis2D (List.replicate M []) (List.replicate M []) d k T
        = some (List.replicate T 0)) := by
  constructor
  · intro d k T
    rw [AdditiveSynthesis1D, AdditiveSynthesis1Draw_zero _ _ d k T (by simp)]
    exact normalise_of_all_zero _ fun x hx => List.eq_of_mem_replicate hx
  · intro d k T M hM
    rw [AdditiveSynthesis2D]
    have h0 : (List.replicate M ([] : List ℝ))[0]? = some [] := by
      rw [List.getElem?_replicate]
      simp [hM]
    rw [h0]
    show some (normalise (AdditiveSynthesis2Draw (List.replicate M [])
      (List.replicate M []) ([] : List ℝ).length d k T)) = _
    rw [AdditiveSynthesis2Draw_zero _ _ _ d k T
        (fun row hrow => by rw [List.eq_of_mem_replicate hrow]; simp),
      normalise_of_all_zero _ fun x hx => List.eq_of_mem_replicate hx]

/-- Witness for C7: the amended theorem applied at `d = 0, k = 1, T = 3`
and (for the 2D conjunct) `M = 1`. -/
theorem claim_C7_witness :
    AdditiveSynthesis1D [] [] 0 1 3 = List.replicate 3 0 ∧
    AdditiveSynthesis2D (List.replicate 1 []) (List.replicate 1 []) 0 1 3
      = some (List.replicate 3 0) :=
  ⟨claim_C7_theorem.1 0 1 3, claim_C7_theorem.2 0 1 3 1 (by norm_num)⟩

/-! ## Chladni patterns (`src/physics/modes/wave_equation.hpp`) -/

/-- Embedding of `kac_core::physics::ChladniPattern1D`:
`B[x] = std::abs(U[x]) < tolerance ? 1 : 0` for `x < U.size()`.  The 0/1
`short` flags of `BooleanImage_1D` are modelled as `Bool`. -/
def ChladniPattern1D (U : List ℝ) (tolerance : ℝ) : List Bool :=
  (List.range U.length).map fun x =>
    if |U.getD x 0| < tolerance then true else false

/-- Embedding of `kac_core::physics::ChladniPattern2D`: an
`U.size() × U[0].size()` grid with
`B[x][y] = std::abs(U[x][y]) < tolerance ? 1 : 0`.  The source reads
`U[0].size()` unconditionally; for a rowless field (`U.size() == 0`) that is
an out-of-bounds `std::vector` access (undefined behaviour), modelled here
by `U[0]?` and an `Option` result. -/
def ChladniPattern2D (U : List (List ℝ)) (tolerance : ℝ) :
    Option (List (List Bool)) :=
  match U[0]? with
  | none => none
  | some r0 =>
    some ((List.range U.length).map fun x =>
      (List.range r0.length).map fun y =>
        if |(U.getD x []).getD y 0| < tolerance then true else false)

/-- C8 counterexample: for a rowless (`U.size() = 0`) field the 2D variant
does NOT return a boolean grid of the same shape: the source reads
`U[0].size()` before the loops, an out-of-bounds access on an empty
`std::vector` (undefined behaviour), modelled as `none`. -/
theorem claim_C8_counterexample :
    ChladniPattern2D ([] : List (List ℝ)) 1 = none := rfl

/-- C8 (amended): `chladniPattern` returns a boolean grid of the same shape
as the field, with a cell marked true if and only if |field| < tolerance at
that cell — for every 1D field, and for every rectangular 2D field with at
least one row; a rowless 2D field instead triggers the out-of-bounds read
`U[0]` (see the counterexample).  (Out-of-range reads of the modelled
boolean grid return `false`.) -/
theorem claim_C8_theorem :
    (∀ (U : List ℝ) (tol : ℝ),
      (ChladniPattern1D U tol).length = U.length ∧
      (∀ x : ℕ, (ChladniPattern1D U tol).getD x false = true ↔
        x < U.length ∧ |U.getD x 0| < tol)) ∧
    (∀ (U : List (List ℝ)) (tol : ℝ) (B : List (List Bool)),
      (∀ row ∈ U, row.length = (U.getD 0 []).length) →
      ChladniPattern2D U tol = some B →
      (B.length = U.length ∧
       (∀ x : ℕ, x < U.length →
         (B.getD x []).length = (U.getD x []).length) ∧
       (∀ x y : ℕ, (B.getD x []).getD y false = true ↔
         x < U.length ∧ y < (U.getD x []).length ∧
           |(U.getD x []).getD y 0| < tol))) ∧
    (∀ (U : List (List ℝ)) (tol : ℝ), U ≠ [] →
      ∃ B, ChladniPattern2D U tol = some B) := by
  refine ⟨?_, ?_, ?_⟩
  · intro U tol
    refine ⟨by rw [ChladniPattern1D]; simp, fun x => ?_⟩
    by_cases hx : x < U.length
    · rw [ChladniPattern1D, getD_map_range _ false _ x hx]
      by_cases h : |U.getD x 0| < tol
      · rw [if_pos h]; exact iff_of_true rfl ⟨hx, h⟩
      · rw [if_neg h]; exact iff_of_false (by simp) fun hc => h hc.2
    · rw [ChladniPattern1D, getD_map_range_oob _ false _ x hx]
      exact iff_of_false (by simp) fun hc => hx hc.1
  · intro U tol B hrect hsome
    have hrow : ∀ x : ℕ, x < U.length →
        (U.getD x []).length = (U.getD 0 []).length := by
      intro x hx
      rw [List.getD_eq_getElem U [] hx]
      exact hrect _ (List.getElem_mem hx)
    rw [ChladniPattern2D] at hsome
    cases h0 : U[0]? with
    | none => rw [h0] at hsome; cases hsome
    | some r0 =>
        rw [h0] at hsome
        have hB : B = (List.range U.length).map fun x =>
            (List.range r0.length).map fun y =>
              if |(U.getD x []).getD y 0| < tol then true else false :=
          (Option.some.injEq _ _ ▸ hsome).symm
        have hr0 : U.getD 0 [] = r0 := by
          rw [List.getD_eq_getElem?_getD, h0]
          rfl
        have hlen : ∀ x : ℕ, x < U.length →
            (U.getD x []).length = r0.length := by
          intro x hx
          rw [hrow x hx, hr0]
        subst hB
        refine ⟨by simp, fun x hx => ?_, fun x y => ?_⟩
        · rw [getD_map_range _ [] _ x hx, List.length_map, List.length_range]
          exact (hlen x hx).symm
        · by_cases hx : x < U.length
          · rw [getD_map_range _ [] _ x hx]
            by_cases hy : y < (U.getD x []).length
            · rw [getD_map_range _ false _ y ((hlen x hx) ▸ hy)]
              by_cases h : |(U.getD x []).getD y 0| < tol
              · rw [if_pos h]; exact iff_of_true rfl ⟨hx, hy, h⟩
              · rw [if_neg h]
                exact iff_of_false (by simp) fun hc => h hc.2.2
            · rw [getD_map_range_oob _ false _ y ((hlen x hx) ▸ hy)]
              exact iff_of_false (by simp) fun hc => hy hc.2.1
          · rw [getD_map_range_oob _ [] _ x hx]
            exact iff_of_false (by simp) fun hc => hx hc.1
  · intro U tol hne
    have hlt : 0 < U.length := List.length_pos.mpr hne
    have h0 : U[0]? = some U[0] := List.getElem?_eq_getElem hlt
    rw [ChladniPattern2D, h0]
    exact ⟨_, rfl⟩

theorem chladni2D_concrete :
    ChladniPattern2D [[0], [5]] 1 = some [[true], [false]] := by
  rw [ChladniPattern2D]
  have h0 : ([[0], [5]] : List (List ℝ))[0]? = some [0] := rfl
  rw [h0]
  show some ((List.range ([[0], [5]] : List (List ℝ)).length).map fun x =>
    (List.range ([0] : List ℝ).length).map fun y =>
      if |(([[0], [5]] : List (List ℝ)).getD x []).getD y 0| < 1 then true
      else false) = _
  rw [show ([[0], [5]] : List (List ℝ)).length = 2 from rfl,
      show ([0] : List ℝ).length = 1 from rfl,
      show List.range 2 = [0, 1] from rfl,
      show List.range 1 = [0] from rfl]
  simp only [List.map_cons, List.map_nil]
  have e1 : (([[0], [5]] : List (List ℝ)).getD 0 []).getD 0 0 = 0 := rfl
  have e2 : (([[0], [5]] : List (List ℝ)).getD 1 []).getD 0 0 = 5 := rfl
  rw [e1, e2, if_pos (by norm_num), if_neg (by norm_num)]

/-- Witness for C8: the amended theorem applied to the concrete rectangular
field `[[0], [5]]` with tolerance 1, whose computed pattern is
`some [[true], [false]]` (discharging the rectangularity and definedness
hypotheses there). -/
theorem claim_C8_witness :
    ([[true], [false]] : List (List Bool)).length
        = ([[0], [5]] : List (List ℝ)).length ∧
    (([[true], [false]] : List (List Bool)).getD 0 []).getD 0 false = true ∧
    (([[true], [false]] : List (List Bool)).getD 1 []).getD 0 false = false ∧
    ChladniPattern2D [[0], [5]] 1 ≠ none := by
  have h := claim_C8_theorem.2.1 [[0], [5]] 1 [[true], [false]] (by simp)
    chladni2D_concrete
  have hex := claim_C8_theorem.2.2 [[0], [5]] 1 (by simp)
  refine ⟨h.1, ?_, ?_, ?_⟩
  · rw [(h.2.2 0 0)]
    norm_num
  · have h2 := h.2.2 1 0
    by_contra hb
    have hb' : (([[true], [false]] : List (List Bool)).getD 1 []).getD 0 false
        = true := by
      cases hh : (([[true], [false]] : List (List Bool)).getD 1 []).getD 0 false
      · exact absurd hh hb
      · rfl
    have := (h2.mp hb').2.2
    norm_num at this
  · obtain ⟨B, hB⟩ := hex
    rw [hB]
    exact Option.some_ne_none B

/-! ## FDTD engine (`src/physics/fdtd/fdtd.hpp`)

Grids are modelled as total functions `ℕ → ℝ` / `ℕ → ℕ → ℝ` (obtained from
the caller's vectors via `getD`), the boundary mask as `ℕ → ℕ → Bool`. -/

/-- Readout index `x_0 = std::floor(w * X)` (cast to `size_t`). -/
def interpIndex (w : ℝ) (X : ℕ) : ℕ :=
  (⌊w * (X : ℝ)⌋).toNat

/-- Readout fraction `a = w * X - x_0`. -/
def interpFrac (w : ℝ) (X : ℕ) : ℝ :=
  w * (X : ℝ) - (interpIndex w X : ℝ)

/-- The `linearInterpolation` lambda of `FDTDWaveform1D`:
`(1 - a) * u[x_0] + a * u[x_0 + 1]` with `X = u_0.size() - 2`. -/
def linInterp (w : ℝ) (X : ℕ) (f : ℕ → ℝ) : ℝ :=
  (1 - interpFrac w X) * f (interpIndex w X)
    + interpFrac w X * f (interpIndex w X + 1)

/-- The `bilinearInterpolation` lambda of `FDTDWaveform2D`:
`coef_0·u[x_0][y_0] + coef_1·u[x_0][y_0+1] + coef_2·u[x_0+1][y_0] +
coef_3·u[x_0+1][y_0+1]`. -/
def biInterp (wx wy : ℝ) (X Y : ℕ) (f : ℕ → ℕ → ℝ) : ℝ :=
  (1 - interpFrac wx X) * (1 - interpFrac wy Y)
      * f (interpIndex wx X) (interpIndex wy Y)
    + (1 - interpFrac wx X) * interpFrac wy Y
      * f (interpIndex wx X) (interpIndex wy Y + 1)
    + interpFrac wx X * (1 - interpFrac wy Y)
      * f (interpIndex wx X + 1) (interpIndex wy Y)
    + interpFrac wx X * interpFrac wy Y
      * f (interpIndex wx X + 1) (interpIndex wy Y + 1)

def listToGrid1 (u : List ℝ) : ℕ → ℝ :=
  fun x => u.getD x 0

def listToGrid2 (u : List (List ℝ)) : ℕ → ℕ → ℝ :=
  fun x y => (u.getD x []).getD y 0

def listToMask (B : List (List Bool)) : ℕ → ℕ → Bool :=
  fun x y => (B.getD x []).getD y false

/-- The inner `for (y ...) { if (B[x][y]) { ...; break; } }` of the forward
bounding-box scan: the first index in the candidate list where the
predicate holds. -/
def firstHit (p : ℕ → Bool) : List ℕ → Option ℕ
  | [] => none
  | y :: ys => if p y then some y else firstHit p ys

/-- The inner loop of the backward bounding-box scan, which iterates the
`y` candidates in descending order and breaks at the first hit: the last
index in the (ascending) candidate list where the predicate holds. -/
def lastHit (p : ℕ → Bool) : List ℕ → Option ℕ
  | [] => none
  | y :: ys =>
    match lastHit p ys with
    | some z => some z
    | none => if p y then some y else none

/-- One row of the forward bounding-box scan: a row `x` whose first
interior hit is `y` contributes `min x` / `min y` to the running state. -/
def fwdStep (B : ℕ → ℕ → Bool) (Y : ℕ) : ℕ × ℕ → ℕ → ℕ × ℕ :=
  fun st x =>
    match firstHit (fun y => B x y) (List.range' 1 (Y - 2)) with
    | some y => (min x st.1, min y st.2)
    | none => st

/-- One row of the backward bounding-box scan: a row `x` whose last
interior hit is `y` contributes `max x` / `max y` to the running state. -/
def bwdStep (B : ℕ → ℕ → Bool) (Y : ℕ) : ℕ × ℕ → ℕ → ℕ × ℕ :=
  fun st x =>
    match lastHit (fun y => B x y) (List.range' 1 (Y - 2)) with
    | some y => (max x st.1, max y st.2)
    | none => st

/-- Forward bounding-box scan of `FDTDWaveform2D`: starting from
`x_range[0] = B_dim_X`, `y_range[0] = B_dim_Y`, rows `x ∈ [1, X-2]`. -/
def scanFwd (B : ℕ → ℕ → Bool) (X Y : ℕ) : ℕ × ℕ :=
  (List.range' 1 (X - 2)).foldl (fwdStep B Y) (X, Y)

/-- Backward bounding-box scan of `FDTDWaveform2D`: rows are visited in
descending order, starting from `x_range[1] = 0`, `y_range[1] = 0`. -/
def scanBwd (B : ℕ → ℕ → Bool) (X Y : ℕ) : ℕ × ℕ :=
  ((List.range' 1 (X - 2)).reverse).foldl (bwdStep B Y) (0, 0)

/-- The active bounding box `(x_range, y_range)` computed once before the
main loop of `FDTDWaveform2D`. -/
def boundingBox (B : ℕ → ℕ → Bool) (X Y : ℕ) : (ℕ × ℕ) × (ℕ × ℕ) :=
  (((scanFwd B X Y).1, (scanBwd B X Y).1),
   ((scanFwd B X Y).2, (scanBwd B X Y).2))

/-- Embedding of `FDTDUpdate2D` (the update lambda of `FDTDWaveform2D` and
the free function of the same name): inside the bounding box, every cell
with `B[x][y]` set becomes
`c_0·(u_b[x+1][y] + u_b[x][y+1] + u_b[x-1][y] + u_b[x][y-1]) + c_1·u_b[x][y]
− c_2·u_a[x][y]`; every other cell keeps its `u_a` value.  The in-place
update is sound to model cell-wise because cell `(x,y)` of `u_a` is written
exactly once, after reading only `u_b` and the original `u_a[x][y]`. -/
def fdtdStep2D (B : ℕ → ℕ → Bool) (xr yr : ℕ × ℕ) (c0 c1 c2 : ℝ)
    (ua ub : ℕ → ℕ → ℝ) : ℕ → ℕ → ℝ :=
  fun x y =>
    if xr.1 ≤ x ∧ x ≤ xr.2 ∧ yr.1 ≤ y ∧ y ≤ yr.2 ∧ B x y then
      c0 * (ub (x + 1) y + ub x (y + 1) + ub (x - 1) y + ub x (y - 1))
        + c1 * ub x y - c2 * ua x y
    else ua x y

/-- The ping-pong state of the main loop of `FDTDWaveform2D`: component 1
is the variable `u_0`, component 2 the variable `u_1`, just before loop
iteration `t = k + 2`.  One iteration updates `u_0` in place and swaps. -/
def sim2D (B : ℕ → ℕ → Bool) (xr yr : ℕ × ℕ) (c0 c1 c2 : ℝ)
    (u0 u1 : ℕ → ℕ → ℝ) : ℕ → (ℕ → ℕ → ℝ) × (ℕ → ℕ → ℝ)
  | 0 => (u0, u1)
  | k + 1 =>
    ((sim2D B xr yr c0 c1 c2 u0 u1 k).2,
     fdtdStep2D B xr yr c0 c1 c2 (sim2D B xr yr c0 c1 c2 u0 u1 k).1
       (sim2D B xr yr c0 c1 c2 u0 u1 k).2)

/-- Embedding of the update lambda `FDTDUpdate1D` of `FDTDWaveform1D`: all
cells `x ∈ [1, X]` (with `X = u_0.size() - 2`) update, no mask. -/
def fdtdStep1D (X : ℕ) (c0 c1 c2 : ℝ) (ua ub : ℕ → ℝ) : ℕ → ℝ :=
  fun x =>
    if 1 ≤ x ∧ x ≤ X then
      c0 * (ub (x + 1) + ub (x - 1)) + c1 * ub x - c2 * ua x
    else ua x

/-- Ping-pong state of the main loop of `FDTDWaveform1D`. -/
def sim1D (X : ℕ) (c0 c1 c2 : ℝ) (u0 u1 : ℕ → ℝ) : ℕ → (ℕ → ℝ) × (ℕ → ℝ)
  | 0 => (u0, u1)
  | k + 1 =>
    ((sim1D X c0 c1 c2 u0 u1 k).2,
     fdtdStep1D X c0 c1 c2 (sim1D X c0 c1 c2 u0 u1 k).1
       (sim1D X c0 c1 c2 u0 u1 k).2)

/-- The pre-normalisation waveform of `FDTDWaveform1D`:
`waveform[0]`/`waveform[1]` are the linear interpolations of the two
initial grids, and for `t ≥ 2` the main loop samples the freshly updated
grid. -/
def fdtdRaw1D (u0 u1 : List ℝ) (c0 c1 c2 : ℝ) (T : ℕ) (w : ℝ) : List ℝ :=
  (List.range T).map fun t =>
    if t = 0 then linInterp w (u0.length - 2) (listToGrid1 u0)
    else
      linInterp w (u0.length - 2)
        ((sim1D (u0.length - 2) c0 c1 c2 (listToGrid1 u0) (listToGrid1 u1)
          (t - 1)).2)

/-- Embedding of `kac_core::physics::FDTDWaveform1D`: the explicit
dimension check, then the raw waveform, then peak normalisation. -/
def FDTDWaveform1D (u0 u1 : List ℝ) (c0 c1 c2 : ℝ) (T : ℕ) (w : ℝ) :
    Except String (List ℝ) :=
  if u0.length ≠ u1.length then Except.error "u_0 and u_1 differ in size."
  else Except.ok (normalise (fdtdRaw1D u0 u1 c0 c1 c2 T w))

/-- The pre-normalisation waveform of `FDTDWaveform2D` (interpolation dims
`u_0.size() - 2` × `u_0[0].size() - 2`, bounding box from the mask dims
`B.size()` × `B[0].size()`). -/
def fdtdRaw2D (u0 u1 : List (List ℝ)) (B : List (List Bool))
    (c0 c1 c2 : ℝ) (T : ℕ) (wx wy : ℝ) : List ℝ :=
  (List.range T).map fun t =>
    if t = 0 then
      biInterp wx wy (u0.length - 2) ((u0.getD 0 []).length - 2)
        (listToGrid2 u0)
    else
      biInterp wx wy (u0.length - 2) ((u0.getD 0 []).length - 2)
        ((sim2D (listToMask B)
          (boundingBox (listToMask B) B.length (B.getD 0 []).length).1
          (boundingBox (listToMask B) B.length (B.getD 0 []).length).2
          c0 c1 c2 (listToGrid2 u0) (listToGrid2 u1) (t - 1)).2)

/-- Embedding of `kac_core::physics::FDTDWaveform2D`: the two explicit
dimension checks (each comparing outer sizes and first-row sizes), then the
raw waveform, then peak normalisation. -/
def FDTDWaveform2D (u0 u1 : List (List ℝ)) (B : List (List Bool))
    (c0 c1 c2 : ℝ) (T : ℕ) (wx wy : ℝ) : Except String (List ℝ) :=
  if u0.length ≠ u1.length ∨ (u0.getD 0 []).length ≠ (u1.getD 0 []).length
  then Except.error "u_0 and u_1 differ in size."
  else if u0.length ≠ B.length ∨ (u0.getD 0 []).length ≠ (B.getD 0 []).length
  then Except.error "u_0 and B differ in size."
  else Except.ok (normalise (fdtdRaw2D u0 u1 B c0 c1 c2 T wx wy))

theorem firstHit_some {p : ℕ → Bool} :
    ∀ {l : List ℕ} {z : ℕ}, firstHit p l = some z → z ∈ l ∧ p z = true := by
  intro l
  induction l with
  | nil => intro z h; cases h
  | cons y ys ih =>
      intro z h
      rw [firstHit] at h
      by_cases hy : p y
      · rw [if_pos hy] at h
        cases h
        exact ⟨List.mem_cons_self _ _, hy⟩
      · rw [if_neg hy] at h
        obtain ⟨hmem, hp⟩ := ih h
        exact ⟨List.mem_cons_of_mem _ hmem, hp⟩

theorem lastHit_some {p : ℕ → Bool} :
    ∀ {l : List ℕ} {z : ℕ}, lastHit p l = some z → z ∈ l ∧ p z = true := by
  intro l
  induction l with
  | nil => intro z h; cases h
  | cons y ys ih =>
      intro z h
      rw [lastHit] at h
      cases hrest : lastHit p ys with
      | some z0 =>
          rw [hrest] at h
          cases h
          obtain ⟨hmem, hp⟩ := ih hrest
          exact ⟨List.mem_cons_of_mem _ hmem, hp⟩
      | none =>
          rw [hrest] at h
          by_cases hy : p y
          · rw [if_pos hy] at h
            cases h
            exact ⟨List.mem_cons_self _ _, hy⟩
          · rw [if_neg hy] at h
            cases h

theorem firstHit_range'_le (p : ℕ → Bool) :
    ∀ (n s y : ℕ), y ∈ List.range' s n → p y = true →
      ∃ z, firstHit p (List.range' s n) = some z ∧ z ≤ y ∧ p z = true := by
  intro n
  induction n with
  | zero => intro s y hy; cases hy
  | succ m ih =>
      intro s y hy hp
      rw [List.range'_succ] at hy ⊢
      by_cases hs : p s
      · refine ⟨s, ?_, (List.mem_range'_1.mp (List.range'_succ s m 1 ▸ hy)).1, hs⟩
        rw [firstHit, if_pos hs]
      · have hy' : y ∈ List.range' (s + 1) m := by
          rcases List.mem_cons.mp hy with h | h
          · rw [h] at hp
            exact absurd hp hs
          · exact h
        obtain ⟨z, hz1, hz2, hz3⟩ := ih (s + 1) y hy' hp
        refine ⟨z, ?_, hz2, hz3⟩
        rw [firstHit, if_neg hs, hz1]

theorem lastHit_range'_ge (p : ℕ → Bool) :
    ∀ (n s y : ℕ), y ∈ List.range' s n → p y = true →
      ∃ z, lastHit p (List.range' s n) = some z ∧ y ≤ z ∧ p z = true := by
  intro n
  induction n with
  | zero => intro s y hy; cases hy
  | succ m ih =>
      intro s y hy hp
      rw [List.range'_succ] at hy ⊢
      cases hrest : lastHit p (List.range' (s + 1) m) with
      | some z =>
          obtain ⟨hzmem, hzp⟩ := lastHit_some hrest
          have hform : lastHit p (s :: List.range' (s + 1) m) = some z := by
            rw [lastHit, hrest]
          rcases List.mem_cons.mp hy with h | h
          · refine ⟨z, hform, ?_, hzp⟩
            have := (List.mem_range'_1.mp hzmem).1
            omega
          · obtain ⟨z', hz1', hz2', _⟩ := ih (s + 1) y h hp
            rw [hrest] at hz1'
            cases hz1'
            exact ⟨z, hform, hz2', hzp⟩
      | none =>
          rcases List.mem_cons.mp hy with h | h
          · subst h
            exact ⟨y, by rw [lastHit, hrest, if_pos hp], le_refl y, hp⟩
          · obtain ⟨z', hz1', _, _⟩ := ih (s + 1) y h hp
            rw [hrest] at hz1'
            cases hz1'

theorem foldl_fwdStep_le (B : ℕ → ℕ → Bool) (Y : ℕ) :
    ∀ (l : List ℕ) (st : ℕ × ℕ),
      (l.foldl (fwdStep B Y) st).1 ≤ st.1 ∧ (l.foldl (fwdStep B Y) st).2 ≤ st.2 := by
  intro l
  induction l with
  | nil => intro st; exact ⟨le_refl _, le_refl _⟩
  | cons x xs ih =>
      intro st
      rw [List.foldl_cons]
      have hstep : (fwdStep B Y st x).1 ≤ st.1 ∧ (fwdStep B Y st x).2 ≤ st.2 := by
        rw [fwdStep]
        cases firstHit (fun y => B x y) (List.range' 1 (Y - 2)) with
        | some y => exact ⟨min_le_right _ _, min_le_right _ _⟩
        | none => exact ⟨le_refl _, le_refl _⟩
      exact ⟨le_trans (ih _).1 hstep.1, le_trans (ih _).2 hstep.2⟩

theorem foldl_fwdStep_hit (B : ℕ → ℕ → Bool) (Y : ℕ) :
    ∀ (l : List ℕ) (st : ℕ × ℕ) (x0 y0 : ℕ), x0 ∈ l →
      firstHit (fun y => B x0 y) (List.range' 1 (Y - 2)) = some y0 →
      (l.foldl (fwdStep B Y) st).1 ≤ x0 ∧ (l.foldl (fwdStep B Y) st).2 ≤ y0 := by
  intro l
  induction l with
  | nil => intro st x0 y0 h; cases h
  | cons x xs ih =>
      intro st x0 y0 hmem hhit
      rw [List.foldl_cons]
      rcases List.mem_cons.mp hmem with h | h
      · subst h
        have hstep : fwdStep B Y st x0 = (min x0 st.1, min y0 st.2) := by
          rw [fwdStep, hhit]
        rw [hstep]
        exact ⟨le_trans (foldl_fwdStep_le B Y xs _).1 (min_le_left _ _),
          le_trans (foldl_fwdStep_le B Y xs _).2 (min_le_left _ _)⟩
      · exact ih _ x0 y0 h hhit

theorem foldl_bwdStep_ge (B : ℕ → ℕ → Bool) (Y : ℕ) :
    ∀ (l : List ℕ) (st : ℕ × ℕ),
      st.1 ≤ (l.foldl (bwdStep B Y) st).1 ∧ st.2 ≤ (l.foldl (bwdStep B Y) st).2 := by
  intro l
  induction l with
  | nil => intro st; exact ⟨le_refl _, le_refl _⟩
  | cons x xs ih =>
      intro st
      rw [List.foldl_cons]
      have hstep : st.1 ≤ (bwdStep B Y st x).1 ∧ st.2 ≤ (bwdStep B Y st x).2 := by
        rw [bwdStep]
        cases lastHit (fun y => B x y) (List.range' 1 (Y - 2)) with
        | some y => exact ⟨le_max_right _ _, le_max_right _ _⟩
        | none => exact ⟨le_refl _, le_refl _⟩
      exact ⟨le_trans hstep.1 (ih _).1, le_trans hstep.2 (ih _).2⟩

theorem foldl_bwdStep_hit (B : ℕ → ℕ → Bool) (Y : ℕ) :
    ∀ (l : List ℕ) (st : ℕ × ℕ) (x0 y0 : ℕ), x0 ∈ l →
      lastHit (fun y => B x0 y) (List.range' 1 (Y - 2)) = some y0 →
      x0 ≤ (l.foldl (bwdStep B Y) st).1 ∧ y0 ≤ (l.foldl (bwdStep B Y) st).2 := by
  intro l
  induction l with
  | nil => intro st x0 y0 h; cases h
  | cons x xs ih =>
      intro st x0 y0 hmem hhit
      rw [List.foldl_cons]
      rcases List.mem_cons.mp hmem with h | h
      · subst h
        have hstep : bwdStep B Y st x0 = (max x0 st.1, max y0 st.2) := by
          rw [bwdStep, hhit]
        rw [hstep]
        exact ⟨le_trans (le_max_left _ _)
            (foldl_bwdStep_ge B Y xs (max x0 st.1, max y0 st.2)).1,
          le_trans (le_max_left _ _)
            (foldl_bwdStep_ge B Y xs (max x0 st.1, max y0 st.2)).2⟩
      · exact ih _ x0 y0 h hhit

/-- Every interior cell where the mask is set lies inside the bounding box
computed by the two scans of `FDTDWaveform2D`. -/
theorem boundingBox_contains (B : ℕ → ℕ → Bool) (X Y x y : ℕ)
    (hx1 : 1 ≤ x) (hx2 : x ≤ X - 2) (hy1 : 1 ≤ y) (hy2 : y ≤ Y - 2)
    (hB : B x y = true) :
    (boundingBox B X Y).1.1 ≤ x ∧ x ≤ (boundingBox B X Y).1.2 ∧
    (boundingBox B X Y).2.1 ≤ y ∧ y ≤ (boundingBox B X Y).2.2 := by
  have hymem : y ∈ List.range' 1 (Y - 2) := List.mem_range'_1.mpr ⟨hy1, by omega⟩
  have hxmem : x ∈ List.range' 1 (X - 2) := List.mem_range'_1.mpr ⟨hx1, by omega⟩
  obtain ⟨z, hz, hzy, _⟩ := firstHit_range'_le (fun j => B x j) (Y - 2) 1 y hymem hB
  obtain ⟨z', hz', hyz', _⟩ := lastHit_range'_ge (fun j => B x j) (Y - 2) 1 y hymem hB
  have hf := foldl_fwdStep_hit B Y (List.range' 1 (X - 2)) (X, Y) x z hxmem hz
  have hb := foldl_bwdStep_hit B Y ((List.range' 1 (X - 2)).reverse) (0, 0) x z'
    (List.mem_reverse.mpr hxmem) hz'
  exact ⟨hf.1, hb.1, le_trans hf.2 hzy, le_trans hyz' hb.2⟩

/-- C2 (amended): at every time step of the 2D FDTD engine, every interior
cell with mask = 1 is assigned
`next[x][y] = c0·(curr[x+1][y]+curr[x][y+1]+curr[x-1][y]+curr[x][y-1]) +
c1·curr[x][y] − c2·prev[x][y]` (the precomputed bounding box always contains
such cells), and every cell with mask = 0 is left unchanged — it retains the
value the two caller-supplied initial grids held there, which is zero
throughout the run whenever BOTH initial grids are zero at that cell (but
not for arbitrary initial grids, see the counterexample). -/
theorem claim_C2_theorem :
    (∀ (B : ℕ → ℕ → Bool) (X Y : ℕ) (c0 c1 c2 : ℝ) (ua ub : ℕ → ℕ → ℝ)
        (x y : ℕ), 1 ≤ x → x ≤ X - 2 → 1 ≤ y → y ≤ Y - 2 → B x y = true →
      fdtdStep2D B (boundingBox B X Y).1 (boundingBox B X Y).2 c0 c1 c2
          ua ub x y
        = c0 * (ub (x + 1) y + ub x (y + 1) + ub (x - 1) y + ub x (y - 1))
            + c1 * ub x y - c2 * ua x y) ∧
    (∀ (B : ℕ → ℕ → Bool) (xr yr : ℕ × ℕ) (c0 c1 c2 : ℝ)
        (ua ub : ℕ → ℕ → ℝ) (x y : ℕ), B x y = false →
      fdtdStep2D B xr yr c0 c1 c2 ua ub x y = ua x y) ∧
    (∀ (B : ℕ → ℕ → Bool) (xr yr : ℕ × ℕ) (c0 c1 c2 : ℝ)
        (u0 u1 : ℕ → ℕ → ℝ) (x y : ℕ), B x y = false →
      u0 x y = 0 → u1 x y = 0 →
      ∀ t, (sim2D B xr yr c0 c1 c2 u0 u1 t).1 x y = 0 ∧
           (sim2D B xr yr c0 c1 c2 u0 u1 t).2 x y = 0) := by
  refine ⟨?_, ?_, ?_⟩
  · intro B X Y c0 c1 c2 ua ub x y hx1 hx2 hy1 hy2 hB
    obtain ⟨h1, h2, h3, h4⟩ := boundingBox_contains B X Y x y hx1 hx2 hy1 hy2 hB
    rw [fdtdStep2D, if_pos ⟨h1, h2, h3, h4, hB⟩]
  · intro B xr yr c0 c1 c2 ua ub x y hB
    rw [fdtdStep2D, if_neg fun hc => by simp [hB] at hc]
  · intro B xr yr c0 c1 c2 u0 u1 x y hB h0 h1 t
    induction t with
    | zero => exact ⟨h0, h1⟩
    | succ k ih =>
        refine ⟨ih.2, ?_⟩
        show fdtdStep2D B xr yr c0 c1 c2 (sim2D B xr yr c0 c1 c2 u0 u1 k).1
          (sim2D B xr yr c0 c1 c2 u0 u1 k).2 x y = 0
        rw [fdtdStep2D, if_neg fun hc => by simp [hB] at hc]
        exact ih.1

/-- A 3×3 boundary mask whose only interior cell is free: used as a concrete
FDTD configuration. -/
def maskC2 : ℕ → ℕ → Bool :=
  fun x y => decide (x = 1 ∧ y = 1)

/-- An initial grid holding the (nonzero) value 5 at the fixed border cell
(0,0). -/
def gridC2 : ℕ → ℕ → ℝ :=
  fun x y => if x = 0 ∧ y = 0 then 5 else 0

/-- C2 counterexample: a mask-0 cell does NOT hold zero for arbitrary
caller-supplied initial grids: with both initial grids equal to 5 at the
fixed cell (0,0) of a 3×3 run, the field still holds 5 there after a time
step. -/
theorem claim_C2_counterexample :
    maskC2 0 0 = false ∧
    (sim2D maskC2 (boundingBox maskC2 3 3).1 (boundingBox maskC2 3 3).2
      1 1 1 gridC2 gridC2 1).2 0 0 = 5 ∧
    (5 : ℝ) ≠ 0 := by
  refine ⟨rfl, ?_, by norm_num⟩
  show fdtdStep2D maskC2 (boundingBox maskC2 3 3).1 (boundingBox maskC2 3 3).2
    1 1 1 gridC2 gridC2 0 0 = 5
  rw [fdtdStep2D, if_neg (by decide)]
  rw [gridC2]
  norm_num

/-- Witness for C2: the amended theorem applied at the concrete 3×3
configuration (interior free cell (1,1), coefficients 1) and, for the
zero-retention conjunct, at all-zero initial grids with two time steps. -/
theorem claim_C2_witness :
    fdtdStep2D maskC2 (boundingBox maskC2 3 3).1 (boundingBox maskC2 3 3).2
        1 1 1 gridC2 gridC2 1 1
      = 1 * (gridC2 (1 + 1) 1 + gridC2 1 (1 + 1) + gridC2 (1 - 1) 1
          + gridC2 1 (1 - 1)) + 1 * gridC2 1 1 - 1 * gridC2 1 1 ∧
    ((sim2D maskC2 (boundingBox maskC2 3 3).1 (boundingBox maskC2 3 3).2
        1 1 1 (fun _ _ => 0) (fun _ _ => 0) 2).1 0 0 = 0 ∧
     (sim2D maskC2 (boundingBox maskC2 3 3).1 (boundingBox maskC2 3 3).2
        1 1 1 (fun _ _ => 0) (fun _ _ => 0) 2).2 0 0 = 0) :=
  ⟨claim_C2_theorem.1 maskC2 3 3 1 1 1 gridC2 gridC2 1 1 (by norm_num)
      (by norm_num) (by norm_num) (by norm_num) (by decide),
   claim_C2_theorem.2.2 maskC2 (boundingBox maskC2 3 3).1
      (boundingBox maskC2 3 3).2 1 1 1 (fun _ _ => 0) (fun _ _ => 0) 0 0
      (by decide) rfl rfl 2⟩

/-- A dense rectangular grid of outer size X whose rows all have length Y
(the shape invariant of the spec's data model). -/
def IsGrid {α : Type} (l : List (List α)) (X Y : ℕ) : Prop :=
  l.length = X ∧ ∀ row ∈ l, row.length = Y

theorem IsGrid_row0 {α : Type} {l : List (List α)} {X Y : ℕ}
    (h : IsGrid l X Y) (hX : 0 < X) : (l.getD 0 []).length = Y := by
  have hlen : 0 < l.length := h.1 ▸ hX
  rw [List.getD_eq_getElem l [] hlen]
  exact h.2 _ (List.getElem_mem hlen)

/-- C5 (confirmed): `fdtdWaveform` raises its dimension-mismatch error if
and only if the two initial grids differ in shape or (2D) a grid and the
boundary mask differ in shape — stated for nonempty rectangular grids, the
only shapes on which the C++ checks (which compare outer sizes and
first-row sizes) are defined.  The check precedes the time-stepping loop in
the source, so the outcome is independent of T, the coefficients and the
readout point, as the quantifiers here express. -/
theorem claim_C5_theorem :
    (∀ (u0 u1 : List ℝ) (c0 c1 c2 : ℝ) (T : ℕ) (w : ℝ),
      (∃ e, FDTDWaveform1D u0 u1 c0 c1 c2 T w = Except.error e) ↔
        u0.length ≠ u1.length) ∧
    (∀ (u0 u1 : List (List ℝ)) (B : List (List Bool)) (c0 c1 c2 : ℝ)
        (T : ℕ) (wx wy : ℝ) (X0 Y0 X1 Y1 XB YB : ℕ),
      IsGrid u0 X0 Y0 → IsGrid u1 X1 Y1 → IsGrid B XB YB →
      0 < X0 → 0 < X1 → 0 < XB →
      ((∃ e, FDTDWaveform2D u0 u1 B c0 c1 c2 T wx wy = Except.error e) ↔
        ¬(X0 = X1 ∧ Y0 = Y1 ∧ X0 = XB ∧ Y0 = YB))) := by
  constructor
  · intro u0 u1 c0 c1 c2 T w
    rw [FDTDWaveform1D]
    by_cases h : u0.length ≠ u1.length
    · rw [if_pos h]
      exact iff_of_true ⟨_, rfl⟩ h
    · rw [if_neg h]
      exact iff_of_false (fun hc => by obtain ⟨e, he⟩ := hc; cases he) h
  · intro u0 u1 B c0 c1 c2 T wx wy X0 Y0 X1 Y1 XB YB h0 h1 hB hX0 hX1 hXB
    have hr0 := IsGrid_row0 h0 hX0
    have hr1 := IsGrid_row0 h1 hX1
    have hrB := IsGrid_row0 hB hXB
    rw [FDTDWaveform2D, h0.1, h1.1, hB.1, hr0, hr1, hrB]
    by_cases hc1 : X0 = X1 ∧ Y0 = Y1
    · by_cases hc2 : X0 = XB ∧ Y0 = YB
      · rw [if_neg (by tauto), if_neg (by tauto)]
        exact iff_of_false (fun hc => by obtain ⟨e, he⟩ := hc; cases he)
          (by tauto)
      · rw [if_neg (by tauto), if_pos (by tauto)]
        exact iff_of_true ⟨_, rfl⟩ (by tauto)
    · rw [if_pos (by tauto)]
      exact iff_of_true ⟨_, rfl⟩ (by tauto)

/-- Witness for C5: the theorem applied to the concrete 1×1 grids
`u0 = u1 = [[1]]`, `B = [[true]]` (all shapes agree, so no error is
raised). -/
theorem claim_C5_witness :
    (∃ e, FDTDWaveform2D [[1]] [[1]] [[true]] 1 1 1 3 0 0 = Except.error e) ↔
      ¬((1 : ℕ) = 1 ∧ (1 : ℕ) = 1 ∧ (1 : ℕ) = 1 ∧ (1 : ℕ) = 1) :=
  claim_C5_theorem.2 [[1]] [[1]] [[true]] 1 1 1 3 0 0 1 1 1 1 1 1
    ⟨rfl, by simp⟩ ⟨rfl, by simp⟩ ⟨rfl, by simp⟩
    (by norm_num) (by norm_num) (by norm_num)

/-- C10 (confirmed): for shape-valid inputs, the first two samples of the
pre-normalisation waveform of `fdtdWaveform` are the (bi)linear
interpolations of the two caller-supplied initial grids at the readout
point — sample 0 of the t = 0 grid, sample 1 of the t = 1 grid — before any
update step runs (the main loop only writes samples t ≥ 2), and the
returned waveform is exactly the peak-normalisation of that raw
waveform. -/
theorem claim_C10_theorem :
    (∀ (u0 u1 : List ℝ) (c0 c1 c2 : ℝ) (T : ℕ) (w : ℝ), 2 ≤ T →
      (fdtdRaw1D u0 u1 c0 c1 c2 T w).getD 0 0
          = linInterp w (u0.length - 2) (listToGrid1 u0) ∧
      (fdtdRaw1D u0 u1 c0 c1 c2 T w).getD 1 0
          = linInterp w (u0.length - 2) (listToGrid1 u1)) ∧
    (∀ (u0 u1 : List ℝ) (c0 c1 c2 : ℝ) (T : ℕ) (w : ℝ),
      u0.length = u1.length →
      FDTDWaveform1D u0 u1 c0 c1 c2 T w
        = Except.ok (normalise (fdtdRaw1D u0 u1 c0 c1 c2 T w))) ∧
    (∀ (u0 u1 : List (List ℝ)) (B : List (List Bool)) (c0 c1 c2 : ℝ)
        (T : ℕ) (wx wy : ℝ), 2 ≤ T →
      (fdtdRaw2D u0 u1 B c0 c1 c2 T wx wy).getD 0 0
          = biInterp wx wy (u0.length - 2) ((u0.getD 0 []).length - 2)
              (listToGrid2 u0) ∧
      (fdtdRaw2D u0 u1 B c0 c1 c2 T wx wy).getD 1 0
          = biInterp wx wy (u0.length - 2) ((u0.getD 0 []).length - 2)
              (listToGrid2 u1)) ∧
    (∀ (u0 u1 : List (List ℝ)) (B : List (List Bool)) (c0 c1 c2 : ℝ)
        (T : ℕ) (wx wy : ℝ),
      u0.length = u1.length →
      (u0.getD 0 []).length = (u1.getD 0 []).length →
      u0.length = B.length →
      (u0.getD 0 []).length = (B.getD 0 []).length →
      FDTDWaveform2D u0 u1 B c0 c1 c2 T wx wy
        = Except.ok (normalise (fdtdRaw2D u0 u1 B c0 c1 c2 T wx wy))) := by
  refine ⟨?_, ?_, ?_, ?_⟩
  · intro u0 u1 c0 c1 c2 T w hT
    constructor
    · rw [fdtdRaw1D, getD_map_range _ 0 T 0 (by omega), if_pos rfl]
    · rw [fdtdRaw1D, getD_map_range _ 0 T 1 (by omega),
        if_neg one_ne_zero]
      rfl
  · intro u0 u1 c0 c1 c2 T w h
    rw [FDTDWaveform1D, if_neg (by simp [h])]
  · intro u0 u1 B c0 c1 c2 T wx wy hT
    constructor
    · rw [fdtdRaw2D, getD_map_range _ 0 T 0 (by omega), if_pos rfl]
    · rw [fdtdRaw2D, getD_map_range _ 0 T 1 (by omega),
        if_neg one_ne_zero]
      rfl
  · intro u0 u1 B c0 c1 c2 T wx wy h1 h2 h3 h4
    rw [FDTDWaveform2D, if_neg (by rw [h1, h2]; simp),
      if_neg (by rw [h3, h4]; simp)]

/-- Witness for C10: the theorem applied at the concrete inputs
`u0 = [0, 1, 0]`, `u1 = [0, 0, 0]`, `T = 2`, `w = 0` (1D) and the 1×1 grids
with mask `[[true]]` (2D). -/
theorem claim_C10_witness :
    ((fdtdRaw1D [0, 1, 0] [0, 0, 0] 1 1 1 2 0).getD 0 0
        = linInterp 0 (([0, 1, 0] : List ℝ).length - 2) (listToGrid1 [0, 1, 0]) ∧
     (fdtdRaw1D [0, 1, 0] [0, 0, 0] 1 1 1 2 0).getD 1 0
        = linInterp 0 (([0, 1, 0] : List ℝ).length - 2) (listToGrid1 [0, 0, 0])) ∧
    FDTDWaveform1D [0, 1, 0] [0, 0, 0] 1 1 1 2 0
        = Except.ok (normalise (fdtdRaw1D [0, 1, 0] [0, 0, 0] 1 1 1 2 0)) ∧
    FDTDWaveform2D [[1]] [[1]] [[true]] 1 1 1 2 0 0
        = Except.ok (normalise (fdtdRaw2D [[1]] [[1]] [[true]] 1 1 1 2 0 0)) :=
  ⟨claim_C10_theorem.1 [0, 1, 0] [0, 0, 0] 1 1 1 2 0 (by norm_num),
   claim_C10_theorem.2.1 [0, 1, 0] [0, 0, 0] 1 1 1 2 0 rfl,
   claim_C10_theorem.2.2.2 [[1]] [[1]] [[true]] 1 1 1 2 0 0 rfl rfl rfl rfl⟩
